import Mathlib

/-!
Verification development for the gifnar-legacy-yew volunteer log
(`src/main.rs`).

The application core is embedded shallowly:

* `Entry` mirrors the Rust `struct Entry`; its `hours: f32` field is
  modelled by `F32` below.
* `F32` models IEEE-754 `f32` values as NaN, the two infinities, and
  finite values represented exactly as rationals.  Rounding of decimal
  literals to binary and the binary granularity of `f32` are not
  modelled: no claim under study depends on them.  The IEEE comparison
  semantics (NaN incomparable to everything) is modelled faithfully,
  since the validation in `on_add` hinges on it.
* `parseF32` models `str::parse::<f32>()` (Rust core's `FromStr for
  f32`): optional sign, then case-insensitive `inf` / `infinity` /
  `nan`, or a decimal mantissa with optional fractional part and
  optional decimal exponent.  Unparsable strings yield `none`.
* `Json` models the serde_json document produced or consumed by
  `serde_json::to_string{_pretty}` / `from_str`.  The development works
  at the document level: the concrete text layer (whitespace, key
  quoting) is a faithful injective formatting of this document type and
  round-trips documents, so claims about serializing and deserializing
  are stated on documents.  serde_json's documented behaviour of
  writing non-finite floats as `null` (and of failing to read `null`
  back as a number) is modelled in `encodeF32` / `decodeF32`, and so is
  the overflow of the f64→f32 `as` cast on the read path: a stored
  number of magnitude at or beyond `f32CastBound` (2^128 − 2^103, the
  rounding boundary above `f32::MAX`) loads as the matching infinity.
* `Store` models the browser `localStorage` collaborator as seen
  through the single key `LS_KEY`: it may be unavailable
  (`window().local_storage()` yields no object), `get_item` or
  `set_item` may fail, and otherwise the slot holds an optional
  document.  Slot text that does not parse as a document at all is
  observationally identical to a document that fails to decode as an
  entry list (both make `serde_json::from_str` fail), and is modelled
  by the latter.
* The DOM/Yew glue (`use_state`, alerts, the confirm prompt, file
  downloads) is modelled by passing state explicitly and returning the
  would-be alert; `uid()` (`js_sys::Date::now()`) and `now_stamp()`
  become explicit string parameters supplied by the environment.
* `String.trim`, `str::replace`, string comparison and the stable sort
  are given structurally recursive models (`trimStr`, `csv_esc`,
  `strLe`, `sortBy`) so that concrete runs reduce inside the kernel;
  each is documented at its definition.
-/

/-- The fixed localStorage key (`LS_KEY` in the source). -/
def LS_KEY : String := "gifnar_volunteer_log_v1"

/-- Model of an `f32` value: NaN, the infinities, or a finite value
represented exactly as a rational.  Rounding to binary `f32` is not
modelled (no claim depends on it). -/
inductive F32 where
  | nan : F32
  | inf : F32
  | neginf : F32
  | finite : ℚ → F32
deriving DecidableEq

/-- IEEE-754 `<=` on `f32` as exposed by Rust `PartialOrd`: any
comparison involving NaN is `false`. -/
def F32.le : F32 → F32 → Bool
  | .nan, _ => false
  | _, .nan => false
  | .neginf, _ => true
  | .inf, .inf => true
  | .inf, _ => false
  | .finite _, .neginf => false
  | .finite _, .inf => true
  | .finite p, .finite q => decide (p ≤ q)

/-- IEEE-754 `<` on `f32`: any comparison involving NaN is `false`. -/
def F32.lt : F32 → F32 → Bool
  | .nan, _ => false
  | _, .nan => false
  | .neginf, .neginf => false
  | .neginf, _ => true
  | _, .neginf => false
  | .inf, _ => false
  | .finite _, .inf => true
  | .finite p, .finite q => decide (p < q)

/-- Smallest magnitude that the f64→f32 `as` cast sends to infinity:
an f64 of magnitude at least 2^128 − 2^103 rounds to ±inf, anything of
smaller magnitude rounds to a finite f32 (the tie 2^128 − 2^103 rounds
to even, i.e. to 2^128, which overflows).  Written as the explicit
numeral for cheap kernel reduction; `f32CastBound_eq` checks it against
the power form. -/
def f32CastBound : ℚ := 340282356779733661637539395458142568448

/-- Whether an `F32` is a finite f32 value.  Finite payloads are kept as
exact rationals, so the `finite` constructor over-approximates the f32
value space; a payload of magnitude at or beyond the overflow boundary
corresponds to no finite f32 and is not counted as finite. -/
def F32.isFinite : F32 → Bool
  | .finite q => decide (-f32CastBound < q ∧ q < f32CastBound)
  | _ => false

/-- Numeric value of a list of decimal digit characters. -/
def digitsVal (cs : List Char) : Nat :=
  cs.foldl (fun a c => a * 10 + (c.toNat - 48)) 0

/-- Strip an optional leading sign; returns (isNegative, rest).
Part of the `str::parse::<f32>` model. -/
def parseSign : List Char → Bool × List Char
  | '+' :: cs => (false, cs)
  | '-' :: cs => (true, cs)
  | cs => (false, cs)

/-- ASCII lower-cased code point, for the case-insensitive special
values (`inf`, `infinity`, `nan`) accepted by Rust's float parser. -/
def lowerNat (c : Char) : Nat :=
  if 65 ≤ c.toNat ∧ c.toNat ≤ 90 then c.toNat + 32 else c.toNat

/-- ASCII-case-insensitive equality of character lists. -/
def eqCaseInsensitive (a b : List Char) : Bool :=
  a.map lowerNat == b.map lowerNat

/-- Mantissa of a Rust float literal: `digits`, `digits.`, `digits.digits`
or `.digits`; anything else fails.  Returns the exact rational value. -/
def parseMantissa (cs : List Char) : Option ℚ :=
  let ip := cs.takeWhile Char.isDigit
  let rest := cs.dropWhile Char.isDigit
  match rest with
  | [] => if ip.isEmpty then none else some (digitsVal ip : ℚ)
  | '.' :: rest2 =>
    let fp := rest2.takeWhile Char.isDigit
    let rest3 := rest2.dropWhile Char.isDigit
    if rest3.isEmpty then
      if ip.isEmpty && fp.isEmpty then none
      else some ((digitsVal ip : ℚ) + (digitsVal fp : ℚ) / 10 ^ fp.length)
    else none
  | _ => none

/-- Split a character list at the first `e`/`E` (exponent marker). -/
def splitOnExp : List Char → List Char × Option (List Char)
  | [] => ([], none)
  | c :: cs =>
    if c = 'e' ∨ c = 'E' then ([], some cs)
    else
      let r := splitOnExp cs
      (c :: r.1, r.2)

/-- Exponent part of a Rust float literal: optional sign then a
non-empty digit string. -/
def parseExp (cs : List Char) : Option ℤ :=
  let s := parseSign cs
  if s.2.isEmpty || !(s.2.all Char.isDigit) then none
  else some (if s.1 then -(digitsVal s.2 : ℤ) else (digitsVal s.2 : ℤ))

/-- Model of `str::parse::<f32>()` as used by `on_add`: optional sign,
then case-insensitive `inf`/`infinity`/`nan`, or a decimal mantissa with
optional exponent.  Finite results are kept as exact rationals. -/
def parseF32 (s : String) : Option F32 :=
  let sg := parseSign s.data
  let neg := sg.1
  let cs := sg.2
  if cs.isEmpty then none
  else if eqCaseInsensitive cs "inf".data || eqCaseInsensitive cs "infinity".data then
    some (if neg then F32.neginf else F32.inf)
  else if eqCaseInsensitive cs "nan".data then
    some F32.nan
  else
    let me := splitOnExp cs
    match parseMantissa me.1 with
    | none => none
    | some q =>
      match me.2 with
      | none => some (F32.finite (if neg then -q else q))
      | some ecs =>
        match parseExp ecs with
        | none => none
        | some k => some (F32.finite ((if neg then -q else q) * 10 ^ k))

/-- One logged volunteering session (Rust `struct Entry`). -/
structure Entry where
  id : String
  date : String
  org : String
  hours : F32
  tasks : String
  reflection : String
  tags : String
  created_at : String
deriving DecidableEq

/-- The six form fields feeding `on_add` (the `use_state` string cells
`date`, `org`, `hours`, `tasks`, `reflection`, `tags`). -/
structure Form where
  date : String
  org : String
  hours : String
  tasks : String
  reflection : String
  tags : String

/-- Model of `str::trim` (both handlers trim every field).  Implemented
structurally over the character list; Lean's `Char.isWhitespace` covers
the whitespace characters relevant here. -/
def trimStr (s : String) : String :=
  String.mk (((s.data.dropWhile Char.isWhitespace).reverse.dropWhile
    Char.isWhitespace).reverse)

/-- serde_json document model (the value serialized to / parsed from the
storage slot and the structured export). -/
inductive Json where
  | null : Json
  | bool : Bool → Json
  | str : String → Json
  | num : ℚ → Json
  | arr : List Json → Json
  | obj : List (String × Json) → Json

/-- serde_json serialization of an `f32`: non-finite values are written
as `null` (documented serde_json behaviour); finite values as numbers. -/
def encodeF32 : F32 → Json
  | .finite q => .num q
  | _ => .null

/-- serde_json deserialization of an `f32` from a document node: only a
number succeeds (in particular `null` does not read back as a float).
The number is parsed as an f64 and converted by Rust's `as` cast, which
sends any value of magnitude at or beyond `f32CastBound` to the matching
infinity; rounding below the boundary is not modelled (see the header).
Numbers beyond f64's own range cannot occur in a parsed document, since
serde_json rejects them at the text layer. -/
def decodeF32 : Json → Option F32
  | .num q =>
    if f32CastBound ≤ q then some .inf
    else if q ≤ -f32CastBound then some .neginf
    else some (.finite q)
  | _ => none

/-- serde serialization of one `Entry` (derived `Serialize`): an object
with the fields in declaration order. -/
def encodeEntry (e : Entry) : Json :=
  .obj [("id", .str e.id), ("date", .str e.date), ("org", .str e.org),
        ("hours", encodeF32 e.hours), ("tasks", .str e.tasks),
        ("reflection", .str e.reflection), ("tags", .str e.tags),
        ("created_at", .str e.created_at)]

/-- Field lookup in a document object (derived `Deserialize` matches
fields by name; unknown fields are ignored). -/
def jsonField (j : Json) (k : String) : Option Json :=
  match j with
  | .obj fs => fs.lookup k
  | _ => none

/-- A document node read as a string. -/
def asString : Json → Option String
  | .str s => some s
  | _ => none

/-- serde deserialization of one `Entry` (derived `Deserialize`): every
field must be present with the right type. -/
def decodeEntry (j : Json) : Option Entry := do
  let id ← jsonField j "id" >>= asString
  let date ← jsonField j "date" >>= asString
  let org ← jsonField j "org" >>= asString
  let hours ← jsonField j "hours" >>= decodeF32
  let tasks ← jsonField j "tasks" >>= asString
  let reflection ← jsonField j "reflection" >>= asString
  let tags ← jsonField j "tags" >>= asString
  let created_at ← jsonField j "created_at" >>= asString
  pure ⟨id, date, org, hours, tasks, reflection, tags, created_at⟩

/-- serde serialization of the whole entry list (`Vec<Entry>` becomes a
document array). -/
def encodeEntryList (es : List Entry) : Json :=
  .arr (es.map encodeEntry)

/-- Element-wise decoding of a document array into entries; any failing
element fails the whole list (serde `Vec` deserialization). -/
def decodeEntriesAux : List Json → Option (List Entry)
  | [] => some []
  | j :: js =>
    match decodeEntry j, decodeEntriesAux js with
    | some e, some es => some (e :: es)
    | _, _ => none

/-- serde deserialization of the entry list: only an array node can
succeed. -/
def decodeEntryList : Json → Option (List Entry)
  | .arr js => decodeEntriesAux js
  | _ => none

/-- State of the `localStorage` collaborator, seen through `LS_KEY`:
availability of the storage object, failure of `get_item` / `set_item`,
and the slot contents as a document (see the header comment). -/
structure Store where
  available : Bool
  getFails : Bool
  setFails : Bool
  slot : Option Json

/-- `load_entries`: storage object absent, `get_item` error, empty slot,
or undecodable contents (`serde_json::from_str(..).unwrap_or_default()`)
all degrade to the empty list. -/
def load_entries (st : Store) : List Entry :=
  if !st.available then []
  else if st.getFails then []
  else
    match st.slot with
    | none => []
    | some v => (decodeEntryList v).getD []

/-- `save_entries`: no-op when the storage object is absent;
`serde_json::to_string` cannot fail on this type (non-finite floats
simply become `null`), then `set_item`'s result is discarded
(`let _ = storage.set_item(..)`), so a failing write leaves the slot
unchanged. -/
def save_entries (es : List Entry) (st : Store) : Store :=
  if !st.available then st
  else if st.setFails then st
  else ⟨st.available, st.getFails, st.setFails, some (encodeEntryList es)⟩

/-- The validation failures of `on_add`, one per alert branch. -/
inductive ValidationError where
  | MissingRequired : ValidationError
  | NonPositiveHours : ValidationError
deriving DecidableEq

/-- Result of one `on_add` click: the alert raised (if any), the new
in-memory entry list, and the new store state. -/
structure AddResult where
  alert : Option ValidationError
  entries : List Entry
  store : Store

/-- The `on_add` callback.  `uid` and `now` are the strings produced by
`uid()` (`js_sys::Date::now()`, the millisecond clock) and `now_stamp()`
at this click, passed in as environment inputs. -/
def on_add (f : Form) (uid now : String) (entries : List Entry)
    (st : Store) : AddResult :=
  let d := trimStr f.date
  let o := trimStr f.org
  let h_raw := trimStr f.hours
  let t := trimStr f.tasks
  let r := trimStr f.reflection
  let g := trimStr f.tags
  if d.isEmpty || o.isEmpty then
    ⟨some .MissingRequired, entries, st⟩
  else
    let h := (parseF32 h_raw).getD (F32.finite 0)
    if F32.le h (F32.finite 0) then
      ⟨some .NonPositiveHours, entries, st⟩
    else
      let next : List Entry := ⟨uid, d, o, h, t, r, g, now⟩ :: entries
      ⟨none, next, save_entries next st⟩

/-- A sequence of `on_add` clicks, each with its form contents and the
`uid()` / `now_stamp()` values read at that click. -/
def add_all (steps : List (Form × String × String)) (entries : List Entry)
    (st : Store) : List Entry × Store :=
  match steps with
  | [] => (entries, st)
  | s :: rest =>
    let r := on_add s.1 s.2.1 s.2.2 entries st
    add_all rest r.entries r.store

/-- The `on_clear_all` callback: `confirm_with_message(..).unwrap_or(false)`
guards a save of the empty list and the reset of the in-memory state. -/
def on_clear_all (confirm : Option Bool) (entries : List Entry)
    (st : Store) : List Entry × Store :=
  let ok := confirm.getD false
  if !ok then (entries, st)
  else ([], save_entries [] st)

/-- Byte-lexicographic string order (Rust `Ord` for `String` compares
UTF-8 bytes; UTF-8 preserves code-point order, so this equals
code-point-lexicographic order), implemented structurally. -/
def charListLe : List Char → List Char → Bool
  | [], _ => true
  | _ :: _, [] => false
  | a :: as, b :: bs =>
    if a.toNat < b.toNat then true
    else if b.toNat < a.toNat then false
    else charListLe as bs

/-- `strLe a b` models `a <= b` for Rust strings. -/
def strLe (a b : String) : Bool := charListLe a.data b.data

/-- The sort comparator of the startup load: `a` may precede `b` iff
`b.created_at.cmp(&a.created_at)` is not `Greater`, i.e. newest first. -/
def created_desc (a b : Entry) : Bool := strLe b.created_at a.created_at

/-- Insert into a sorted list, before the first element it may precede
(the stable position). -/
def insertBy (le : α → α → Bool) (a : α) : List α → List α
  | [] => [a]
  | b :: bs => if le a b then a :: b :: bs else b :: insertBy le a bs

/-- Stable sort by a comparator.  The source uses `slice::sort_by`
(a stable merge sort); a stable sort's output is determined by the
comparator and stability alone, so this structurally recursive stable
insertion sort computes the same list. -/
def sortBy (le : α → α → Bool) : List α → List α
  | [] => []
  | a :: as => insertBy le a (sortBy le as)

/-- The `use_state` initializer: load from storage, then sort newest
first by `created_at`. -/
def startup_load (st : Store) : List Entry :=
  sortBy created_desc (load_entries st)

/-- The document serialized by `serde_json::to_string_pretty` in
`on_export_json` (text layer abstracted, see header). -/
def to_structured (es : List Entry) : Json := encodeEntryList es

/-- Decimal rendering of a non-negative natural (kernel-reducible). -/
def natToDec (n : Nat) : String :=
  if n = 0 then "0"
  else String.mk ((Nat.toDigits 10 n))

/-- Decimal rendering of an exact rational with terminating expansion,
matching Rust `Display` for `f32` on the decimal values arising here
(`2.5` prints as `2.5`, `1` as `1`). -/
def ratDisplay (q : ℚ) : String :=
  let sgn := if q < 0 then "-" else ""
  let n := q.num.natAbs
  let d := q.den
  match (List.range 200).find? (fun k => (n * 10 ^ k) % d == 0) with
  | some k =>
    let digits := n * 10 ^ k / d
    if k = 0 then sgn ++ natToDec digits
    else
      let s := natToDec digits
      let cs := if s.length < k + 1 then
          List.replicate (k + 1 - s.length) '0' ++ s.data
        else s.data
      sgn ++ String.mk (cs.take (cs.length - k)) ++ "." ++
        String.mk (cs.drop (cs.length - k))
  | none => sgn ++ natToDec n ++ "/" ++ natToDec d

/-- Rust `Display` output for the `hours` field (`{}` in the CSV row
`format!`). -/
def F32.display : F32 → String
  | .nan => "NaN"
  | .inf => "inf"
  | .neginf => "-inf"
  | .finite q => ratDisplay q

/-- The CSV escaper of `on_export_csv`:
`format!("\"{}\"", s.replace('\"', "\"\""))` — wrap in double quotes and
double every interior double quote.  `str::replace` with a one-character
pattern is modelled character by character. -/
def csv_esc (s : String) : String :=
  "\"" ++ String.mk (s.data.flatMap
    (fun c => if c = '"' then ['"', '"'] else [c])) ++ "\""

/-- One CSV data row of `on_export_csv` (the row `format!`): every text
field escaped, `hours` unquoted via its `Display` form, newline
terminated. -/
def csv_row (e : Entry) : String :=
  csv_esc e.date ++ "," ++ csv_esc e.org ++ "," ++ F32.display e.hours ++
    "," ++ csv_esc e.tasks ++ "," ++ csv_esc e.reflection ++ "," ++
    csv_esc e.tags ++ "," ++ csv_esc e.created_at ++ "\n"

/-- The CSV header line pushed first by `on_export_csv`. -/
def csv_header : String :=
  "date,organization,hours,tasks,reflection,tags,created_at\n"

/-- `on_export_csv`: start from the header and append one row per entry
in list order. -/
def to_tabular (es : List Entry) : String :=
  es.foldl (fun out e => out ++ csv_row e) csv_header

/-- Concatenation of a list of strings (used to state the shape of the
tabular export). -/
def strConcat : List String → String
  | [] => ""
  | s :: ss => s ++ strConcat ss

/-- A store whose slot holds one well-formed entry object whose hours
field is the JSON number 1e39 — within f64's range but beyond the f32
overflow boundary, so the program's load turns it into +inf. -/
def overflowSlotStore : Store :=
  ⟨true, false, false, some (Json.arr [Json.obj
    [("id", Json.str "a"), ("date", Json.str "d"), ("org", Json.str "o"),
      ("hours", Json.num 1000000000000000000000000000000000000000), ("tasks", Json.str ""),
      ("reflection", Json.str ""), ("tags", Json.str ""),
      ("created_at", Json.str "c")]])⟩

/-! ### Helper lemmas -/

theorem f32CastBound_eq : f32CastBound = 2 ^ 128 - 2 ^ 103 := by
  norm_num [f32CastBound]

theorem F32.le_zero_eq_false_of_lt (h : F32)
    (hlt : F32.lt (F32.finite 0) h = true) :
    F32.le h (F32.finite 0) = false := by
  cases h with
  | nan => rfl
  | inf => rfl
  | neginf => simp [F32.lt] at hlt
  | finite q =>
    simp only [F32.lt, decide_eq_true_eq] at hlt
    simp only [F32.le, decide_eq_false_iff_not]
    linarith

theorem decodeF32_encodeF32 (h : F32) (hf : h.isFinite = true) :
    decodeF32 (encodeF32 h) = some h := by
  cases h with
  | finite q =>
    simp only [F32.isFinite, decide_eq_true_eq] at hf
    have hb1 : ¬ f32CastBound ≤ q := by linarith [hf.2]
    have hb2 : ¬ q ≤ -f32CastBound := by linarith [hf.1]
    simp only [encodeF32, decodeF32, if_neg hb1, if_neg hb2]
  | nan => simp [F32.isFinite] at hf
  | inf => simp [F32.isFinite] at hf
  | neginf => simp [F32.isFinite] at hf

theorem decode_encode_entry (e : Entry) (h : e.hours.isFinite = true) :
    decodeEntry (encodeEntry e) = some e := by
  cases e with
  | mk id date org hours tasks reflection tags created_at =>
    have hdec := decodeF32_encodeF32 hours h
    show Option.bind (decodeF32 (encodeF32 hours))
        (fun h2 =>
          some (Entry.mk id date org h2 tasks reflection tags created_at)) =
      some (Entry.mk id date org hours tasks reflection tags created_at)
    rw [hdec]
    rfl

theorem decode_encode_entryList (L : List Entry)
    (h : ∀ e ∈ L, e.hours.isFinite = true) :
    decodeEntryList (encodeEntryList L) = some L := by
  induction L with
  | nil => rfl
  | cons e es ih =>
    have he : e.hours.isFinite = true := h e (by simp)
    have hes : ∀ x ∈ es, x.hours.isFinite = true :=
      fun x hx => h x (by simp [hx])
    have ihe := ih hes
    simp only [encodeEntryList, decodeEntryList, List.map_cons,
      decodeEntriesAux] at ihe ⊢
    rw [decode_encode_entry e he, ihe]

theorem mem_insertBy {le : α → α → Bool} {a x : α} :
    ∀ {l : List α}, x ∈ insertBy le a l → x = a ∨ x ∈ l := by
  intro l
  induction l with
  | nil => intro h; simp [insertBy] at h; exact Or.inl h
  | cons b bs ih =>
    intro h
    simp only [insertBy] at h
    by_cases hc : le a b = true
    · rw [if_pos hc] at h
      rcases List.mem_cons.mp h with h1 | h2
      · exact Or.inl h1
      · exact Or.inr h2
    · rw [if_neg hc] at h
      rcases List.mem_cons.mp h with h1 | h2
      · exact Or.inr (by simp [h1])
      · rcases ih h2 with h3 | h4
        · exact Or.inl h3
        · exact Or.inr (by simp [h4])

theorem pairwise_insertBy {le : α → α → Bool}
    (total : ∀ a b, (le a b || le b a) = true)
    (htrans : ∀ a b c, le a b = true → le b c = true → le a c = true)
    (a : α) :
    ∀ {l : List α}, l.Pairwise (fun x y => le x y = true) →
      (insertBy le a l).Pairwise (fun x y => le x y = true) := by
  intro l
  induction l with
  | nil => intro _; simp [insertBy]
  | cons b bs ih =>
    intro hp
    rcases List.pairwise_cons.mp hp with ⟨hb, hbs⟩
    simp only [insertBy]
    by_cases hc : le a b = true
    · rw [if_pos hc]
      refine List.pairwise_cons.mpr ⟨?_, hp⟩
      intro x hx
      rcases List.mem_cons.mp hx with h1 | h2
      · rw [h1]; exact hc
      · exact htrans a b x hc (hb x h2)
    · rw [if_neg hc]
      refine List.pairwise_cons.mpr ⟨?_, ih hbs⟩
      intro x hx
      rcases mem_insertBy hx with h1 | h2
      · rw [h1]
        have := total a b
        rcases Bool.or_eq_true_iff.mp this with h3 | h4
        · exact absurd h3 hc
        · exact h4
      · exact hb x h2

theorem pairwise_sortBy {le : α → α → Bool}
    (total : ∀ a b, (le a b || le b a) = true)
    (htrans : ∀ a b c, le a b = true → le b c = true → le a c = true) :
    ∀ l : List α, (sortBy le l).Pairwise (fun x y => le x y = true) := by
  intro l
  induction l with
  | nil => simp [sortBy]
  | cons a as ih => exact pairwise_insertBy total htrans a ih

theorem charListLe_total :
    ∀ a b : List Char, (charListLe a b || charListLe b a) = true := by
  intro a
  induction a with
  | nil => intro b; simp [charListLe]
  | cons c cs ih =>
    intro b
    cases b with
    | nil => simp [charListLe]
    | cons d ds =>
      simp only [charListLe]
      by_cases h1 : c.toNat < d.toNat
      · simp [h1]
      · by_cases h2 : d.toNat < c.toNat
        · simp [h1, h2]
        · simp only [h1, h2, if_false]
          exact ih ds

theorem charListLe_trans :
    ∀ a b c : List Char, charListLe a b = true → charListLe b c = true →
      charListLe a c = true := by
  intro a
  induction a with
  | nil => intro b c _ _; simp [charListLe]
  | cons x xs ih =>
    intro b c hab hbc
    cases b with
    | nil => simp [charListLe] at hab
    | cons y ys =>
      cases c with
      | nil => simp [charListLe] at hbc
      | cons z zs =>
        simp only [charListLe] at hab hbc ⊢
        by_cases h1 : x.toNat < y.toNat
        · by_cases h2 : y.toNat < z.toNat
          · simp [show x.toNat < z.toNat by omega]
          · by_cases h3 : z.toNat < y.toNat
            · simp [h2, h3] at hbc
            · simp [show x.toNat < z.toNat by omega]
        · by_cases h1b : y.toNat < x.toNat
          · simp [h1, h1b] at hab
          · by_cases h2 : y.toNat < z.toNat
            · simp [show x.toNat < z.toNat by omega]
            · by_cases h3 : z.toNat < y.toNat
              · simp [h2, h3] at hbc
              · simp only [h1, h1b, if_false] at hab
                simp only [h2, h3, if_false] at hbc
                simp only [show ¬x.toNat < z.toNat by omega,
                  show ¬z.toNat < x.toNat by omega, if_false]
                exact ih ys zs hab hbc

theorem created_desc_total :
    ∀ a b : Entry, (created_desc a b || created_desc b a) = true := by
  intro a b
  exact charListLe_total b.created_at.data a.created_at.data

theorem created_desc_trans :
    ∀ a b c : Entry, created_desc a b = true → created_desc b c = true →
      created_desc a c = true := by
  intro a b c hab hbc
  exact charListLe_trans c.created_at.data b.created_at.data a.created_at.data
    hbc hab

theorem foldl_append_strConcat (g : α → String) :
    ∀ (l : List α) (init : String),
      l.foldl (fun out e => out ++ g e) init = init ++ strConcat (l.map g) := by
  intro l
  induction l with
  | nil =>
    intro init
    simp [strConcat]
  | cons a as ih =>
    intro init
    simp only [List.foldl_cons, List.map_cons, strConcat]
    rw [ih (init ++ g a), String.append_assoc]

theorem on_add_entries_cases (f : Form) (uid now : String)
    (es : List Entry) (st : Store) :
    (on_add f uid now es st).entries = es ∨
      ∃ e : Entry, e.id = uid ∧ (on_add f uid now es st).entries = e :: es := by
  unfold on_add
  by_cases h1 : ((trimStr f.date).isEmpty || (trimStr f.org).isEmpty) = true
  · rw [if_pos h1]
    exact Or.inl rfl
  · rw [if_neg h1]
    by_cases h2 : F32.le ((parseF32 (trimStr f.hours)).getD (F32.finite 0))
        (F32.finite 0) = true
    · rw [if_pos h2]
      exact Or.inl rfl
    · rw [if_neg h2]
      exact Or.inr ⟨_, rfl, rfl⟩

/-! ### Claims -/

/-- C1: the claim says every entry reaching storage has non-empty org and
hours strictly greater than 0, for any hours input string including ones
parsing to special floating-point values.  Evaluation at the failing input
hours = "NaN": the validation `h <= 0.0` is false for NaN, so no alert is
raised, the entry is stored with NaN hours, and NaN is not strictly greater
than 0 — the code violates the claimed invariant (and its own alert text
"Hours must be greater than 0."). -/
theorem C1_nan_hours_stored :
    (on_add ⟨"2025-01-10", "Food Bank", "NaN", "", "", ""⟩ "id1" "ts1" []
        ⟨true, false, false, none⟩).alert = none ∧
    (on_add ⟨"2025-01-10", "Food Bank", "NaN", "", "", ""⟩ "id1" "ts1" []
        ⟨true, false, false, none⟩).entries =
      [⟨"id1", "2025-01-10", "Food Bank", F32.nan, "", "", "", "ts1"⟩] ∧
    F32.lt (F32.finite 0) F32.nan = false := by
  refine ⟨?_, ?_, rfl⟩
  · with_unfolding_all rfl
  · with_unfolding_all rfl

/-- C2: for inputs whose trimmed date and org are non-empty and whose hours
string parses (unparsable treated as 0) to a value strictly greater than 0,
`on_add` raises no alert and constructs exactly the entry whose date, org,
tasks, reflection and tags are the trimmed inputs, whose hours is the parsed
number, and whose id and created_at are the freshly supplied `uid()` /
`now_stamp()` values, prepended to the list. -/
theorem C2_valid_build (f : Form) (uid now : String) (es : List Entry)
    (st : Store) (hd : (trimStr f.date).isEmpty = false)
    (ho : (trimStr f.org).isEmpty = false)
    (hh : F32.lt (F32.finite 0)
      ((parseF32 (trimStr f.hours)).getD (F32.finite 0)) = true) :
    (on_add f uid now es st).alert = none ∧
    (on_add f uid now es st).entries =
      ⟨uid, trimStr f.date, trimStr f.org,
        (parseF32 (trimStr f.hours)).getD (F32.finite 0),
        trimStr f.tasks, trimStr f.reflection, trimStr f.tags, now⟩ :: es := by
  have h3 := F32.le_zero_eq_false_of_lt _ hh
  unfold on_add
  simp [hd, ho, h3]

/-- C2 witness: the theorem applied at the concrete valid input
(date "2025-01-10", org "Food Bank", hours "2.5"). -/
theorem C2_valid_build_witness :
    ((trimStr "2025-01-10").isEmpty = false ∧
      (trimStr "Food Bank").isEmpty = false ∧
      F32.lt (F32.finite 0)
        ((parseF32 (trimStr "2.5")).getD (F32.finite 0)) = true) ∧
    ((on_add ⟨"2025-01-10", "Food Bank", "2.5", "sorting", "", "service"⟩
        "id1" "ts1" [] ⟨true, false, false, none⟩).alert = none ∧
      (on_add ⟨"2025-01-10", "Food Bank", "2.5", "sorting", "", "service"⟩
        "id1" "ts1" [] ⟨true, false, false, none⟩).entries =
        ⟨"id1", trimStr "2025-01-10", trimStr "Food Bank",
          (parseF32 (trimStr "2.5")).getD (F32.finite 0),
          trimStr "sorting", trimStr "", trimStr "service", "ts1"⟩ :: []) :=
  ⟨⟨by decide, by decide, by with_unfolding_all rfl⟩,
    C2_valid_build ⟨"2025-01-10", "Food Bank", "2.5", "sorting", "", "service"⟩
      "id1" "ts1" [] ⟨true, false, false, none⟩
      (by decide) (by decide) (by with_unfolding_all rfl)⟩

/-- C3: `on_add` alerts MissingRequired exactly when the trimmed date or org
is empty; when both are non-empty it alerts NonPositiveHours exactly when the
hours string, parsed with unparsable input treated as 0.0, is `<= 0` under
IEEE comparison; and every alerting run leaves the in-memory list and the
store untouched. -/
theorem C3_validation_exact (f : Form) (uid now : String) (es : List Entry)
    (st : Store) :
    ((on_add f uid now es st).alert = some .MissingRequired ↔
      ((trimStr f.date).isEmpty || (trimStr f.org).isEmpty) = true) ∧
    ((on_add f uid now es st).alert = some .NonPositiveHours ↔
      (((trimStr f.date).isEmpty || (trimStr f.org).isEmpty) = false ∧
        F32.le ((parseF32 (trimStr f.hours)).getD (F32.finite 0))
          (F32.finite 0) = true)) ∧
    (∀ err, (on_add f uid now es st).alert = some err →
      (on_add f uid now es st).entries = es ∧
        (on_add f uid now es st).store = st) := by
  unfold on_add
  by_cases h1 : ((trimStr f.date).isEmpty || (trimStr f.org).isEmpty) = true
  · rw [if_pos h1]
    refine ⟨by simp [h1], by simp [h1], ?_⟩
    intro err _
    exact ⟨rfl, rfl⟩
  · rw [if_neg h1]
    by_cases h2 : F32.le ((parseF32 (trimStr f.hours)).getD (F32.finite 0))
        (F32.finite 0) = true
    · rw [if_pos h2]
      refine ⟨by simp [h1], by simp [h1, h2], ?_⟩
      intro err _
      exact ⟨rfl, rfl⟩
    · rw [if_neg h2]
      refine ⟨by simp [h1], by simp [h1, h2], ?_⟩
      intro err herr
      exact absurd herr (by simp)

/-- C3 witness: the theorem applied at an input with empty date, whose run
alerts MissingRequired and leaves list and store unchanged. -/
theorem C3_validation_exact_witness :
    (on_add ⟨"", "Food Bank", "1", "", "", ""⟩ "id1" "ts1" []
        ⟨true, false, false, none⟩).entries = [] ∧
    (on_add ⟨"", "Food Bank", "1", "", "", ""⟩ "id1" "ts1" []
        ⟨true, false, false, none⟩).store = ⟨true, false, false, none⟩ :=
  (C3_validation_exact ⟨"", "Food Bank", "1", "", "", ""⟩ "id1" "ts1" []
      ⟨true, false, false, none⟩).2.2
    ValidationError.MissingRequired (by with_unfolding_all rfl)

/-- C4 counterexample: the round-trip law fails as stated.  An entry list
whose single entry carries NaN hours (such an entry can reach the in-memory
list, see C1) does not survive the structured round trip: serde_json writes
the non-finite hours as null and decoding then fails outright, rather than
reproducing the list. -/
theorem C4_roundtrip_cex :
    decodeEntryList (to_structured
      [⟨"id1", "2025-01-10", "Food Bank", F32.nan, "", "", "", "ts1"⟩]) =
      none := by
  rfl

/-- C4 amended: for every entry list all of whose hours are finite f32
values, decoding the structured export yields the same list, field for
field and in order. -/
theorem C4_roundtrip_finite (L : List Entry)
    (h : ∀ e ∈ L, e.hours.isFinite = true) :
    decodeEntryList (to_structured L) = some L :=
  decode_encode_entryList L h

/-- C4 witness: the round trip at a concrete two-entry list with finite
hours. -/
theorem C4_roundtrip_finite_witness :
    (∀ e ∈ [⟨"id2", "2025-01-11", "Shelter", F32.finite 2, "x", "y", "z", "ts2"⟩,
        ⟨"id1", "2025-01-10", "Food Bank", F32.finite (5 / 2), "", "", "", "ts1"⟩],
      Entry.hours e |>.isFinite = true) ∧
    decodeEntryList (to_structured
      [⟨"id2", "2025-01-11", "Shelter", F32.finite 2, "x", "y", "z", "ts2"⟩,
        ⟨"id1", "2025-01-10", "Food Bank", F32.finite (5 / 2), "", "", "", "ts1"⟩]) =
      some [⟨"id2", "2025-01-11", "Shelter", F32.finite 2, "x", "y", "z", "ts2"⟩,
        ⟨"id1", "2025-01-10", "Food Bank", F32.finite (5 / 2), "", "", "", "ts1"⟩] :=
  ⟨by with_unfolding_all decide,
    C4_roundtrip_finite
      [⟨"id2", "2025-01-11", "Shelter", F32.finite 2, "x", "y", "z", "ts2"⟩,
        ⟨"id1", "2025-01-10", "Food Bank", F32.finite (5 / 2), "", "", "", "ts1"⟩]
      (by with_unfolding_all decide)⟩

/-- C5: the tabular export is the fixed header line followed by one
newline-terminated row per entry in list order (header only for the empty
list); each row quotes every text field with interior double quotes doubled
(`csv_esc`) and emits hours unquoted in its display form (`csv_row`), and on
the field `sort, box "fast"` the escaper produces exactly
`"sort, box ""fast"""`. -/
theorem C5_tabular_shape :
    (∀ es : List Entry, to_tabular es = csv_header ++ strConcat (es.map csv_row)) ∧
    to_tabular [] = csv_header ∧
    csv_esc "sort, box \"fast\"" = "\"sort, box \"\"fast\"\"\"" := by
  refine ⟨?_, rfl, by with_unfolding_all rfl⟩
  intro es
  exact foldl_append_strConcat csv_row es csv_header

/-- C6: `load_entries` never fails the caller: when the storage object is
unavailable, `get_item` errors, the slot is absent, or the slot contents do
not decode as an entry list, it returns the empty list; on a valid slot it
returns exactly the decoded list. -/
theorem C6_load_total :
    (∀ st : Store, st.available = false → load_entries st = []) ∧
    (∀ st : Store, st.getFails = true → load_entries st = []) ∧
    (∀ st : Store, st.slot = none → load_entries st = []) ∧
    (∀ st : Store, ∀ v, st.slot = some v → decodeEntryList v = none →
      load_entries st = []) ∧
    (∀ st : Store, ∀ v L, st.available = true → st.getFails = false →
      st.slot = some v → decodeEntryList v = some L → load_entries st = L) := by
  refine ⟨?_, ?_, ?_, ?_, ?_⟩
  · intro st h
    simp [load_entries, h]
  · intro st h
    unfold load_entries
    cases hav : st.available
    · rfl
    · simp [h]
  · intro st h
    unfold load_entries
    cases hav : st.available
    · rfl
    · cases hg : st.getFails
      · simp [h]
      · simp
  · intro st v hs hd
    unfold load_entries
    cases hav : st.available
    · rfl
    · cases hg : st.getFails
      · simp [hs, hd]
      · simp
  · intro st v L hav hg hs hd
    simp [load_entries, hav, hg, hs, hd]

/-- C6 witness: the theorem applied at an unavailable store and at a store
holding the valid encoding of a one-entry list. -/
theorem C6_load_total_witness :
    load_entries ⟨false, false, false, none⟩ = [] ∧
    load_entries ⟨true, false, false,
      some (encodeEntryList
        [⟨"id1", "2025-01-10", "Food Bank", F32.finite (5 / 2), "", "", "",
          "ts1"⟩])⟩ =
      [⟨"id1", "2025-01-10", "Food Bank", F32.finite (5 / 2), "", "", "",
        "ts1"⟩] :=
  ⟨C6_load_total.1 ⟨false, false, false, none⟩ rfl,
    C6_load_total.2.2.2.2 ⟨true, false, false,
        some (encodeEntryList
          [⟨"id1", "2025-01-10", "Food Bank", F32.finite (5 / 2), "", "", "",
            "ts1"⟩])⟩
      (encodeEntryList
        [⟨"id1", "2025-01-10", "Food Bank", F32.finite (5 / 2), "", "", "",
          "ts1"⟩])
      [⟨"id1", "2025-01-10", "Food Bank", F32.finite (5 / 2), "", "", "",
        "ts1"⟩]
      rfl rfl rfl (by with_unfolding_all rfl)⟩

/-- C7: the startup load is sorted newest-first (by created_at, descending,
the comparator of the source's sort_by); every successful add prepends the
new entry (index 0), carrying the supplied created_at and id; and prepending
an entry whose created_at is at least every existing one preserves the
descending order without re-sorting. -/
theorem C7_newest_first :
    (∀ st : Store,
      (startup_load st).Pairwise (fun a b => created_desc a b = true)) ∧
    (∀ (f : Form) (uid now : String) (es : List Entry) (st : Store),
      (on_add f uid now es st).alert = none →
        ∃ e : Entry, (on_add f uid now es st).entries = e :: es ∧
          e.created_at = now ∧ e.id = uid) ∧
    (∀ (e : Entry) (es : List Entry),
      es.Pairwise (fun a b => created_desc a b = true) →
      (∀ x ∈ es, strLe x.created_at e.created_at = true) →
      (e :: es).Pairwise (fun a b => created_desc a b = true)) := by
  refine ⟨?_, ?_, ?_⟩
  · intro st
    exact pairwise_sortBy created_desc_total created_desc_trans
      (load_entries st)
  · intro f uid now es st halert
    unfold on_add at halert ⊢
    by_cases h1 : ((trimStr f.date).isEmpty || (trimStr f.org).isEmpty) = true
    · rw [if_pos h1] at halert
      simp at halert
    · rw [if_neg h1] at halert ⊢
      by_cases h2 : F32.le ((parseF32 (trimStr f.hours)).getD (F32.finite 0))
          (F32.finite 0) = true
      · rw [if_pos h2] at halert
        simp at halert
      · rw [if_neg h2]
        exact ⟨_, rfl, rfl, rfl⟩
  · intro e es hp hge
    refine List.pairwise_cons.mpr ⟨?_, hp⟩
    intro x hx
    exact hge x hx

/-- C7 witness: a concrete successful add prepends its entry, and a concrete
descending two-entry list stays descending under a newer prepend. -/
theorem C7_newest_first_witness :
    (∃ e : Entry,
      (on_add ⟨"2025-01-10", "Food Bank", "2.5", "", "", ""⟩ "id1" "ts1"
          [⟨"id0", "d", "o", F32.finite 1, "", "", "", "ts0"⟩]
          ⟨true, false, false, none⟩).entries =
        e :: [⟨"id0", "d", "o", F32.finite 1, "", "", "", "ts0"⟩] ∧
      e.created_at = "ts1" ∧ e.id = "id1") ∧
    ([⟨"id2", "d", "o", F32.finite 1, "", "", "", "ts2"⟩,
      ⟨"id0", "d", "o", F32.finite 1, "", "", "", "ts0"⟩] :
        List Entry).Pairwise (fun a b => created_desc a b = true) :=
  ⟨C7_newest_first.2.1 ⟨"2025-01-10", "Food Bank", "2.5", "", "", ""⟩
      "id1" "ts1" [⟨"id0", "d", "o", F32.finite 1, "", "", "", "ts0"⟩]
      ⟨true, false, false, none⟩ (by with_unfolding_all rfl),
    C7_newest_first.2.2 ⟨"id2", "d", "o", F32.finite 1, "", "", "", "ts2"⟩
      [⟨"id0", "d", "o", F32.finite 1, "", "", "", "ts0"⟩]
      (by simp) (by intro x hx; simp at hx; rw [hx]; with_unfolding_all rfl)⟩

/-- C8 counterexample: unconditional save∘load idempotence fails.  A slot
holding a well-formed entry whose hours is the JSON number 1e39 — within
f64's range but beyond the f32 overflow boundary — loads as an entry with
hours = +inf (the f64→f32 `as` cast overflows); saving that list writes the
non-finite hours back as null, and the second load then fails to decode and
degrades to the empty list, which differs from the first load. -/
theorem C8_idempotence_cex :
    load_entries overflowSlotStore =
      [⟨"a", "d", "o", F32.inf, "", "", "", "c"⟩] ∧
    load_entries (save_entries (load_entries overflowSlotStore)
        overflowSlotStore) = [] ∧
    load_entries (save_entries (load_entries overflowSlotStore)
        overflowSlotStore) ≠ load_entries overflowSlotStore := by
  exact ⟨by with_unfolding_all rfl, by with_unfolding_all rfl,
    by with_unfolding_all decide⟩

/-- C8 amended: saving the result of a load and loading again returns the
first load's list for every store state whose load yields only finite
hours.  Failed or unavailable writes leave the slot unchanged, and a
successful write stores an encoding that decodes back to the loaded list;
the proviso excludes exactly the stored-number-overflow states of the
counterexample, where the loaded ±inf is re-written as null. -/
theorem C8_save_load_idempotent (st : Store)
    (h : ∀ e ∈ load_entries st, e.hours.isFinite = true) :
    load_entries (save_entries (load_entries st) st) = load_entries st := by
  cases st with
  | mk av gf sf slot =>
    cases av with
    | false => simp [save_entries]
    | true =>
      cases sf with
      | true => simp [save_entries]
      | false =>
        cases gf with
        | true => simp [save_entries, load_entries]
        | false =>
          cases slot with
          | none =>
            have h0 : decodeEntryList (encodeEntryList []) = some [] := rfl
            simp [save_entries, load_entries, h0]
          | some v =>
            cases hd : decodeEntryList v with
            | none =>
              have h0 : decodeEntryList (encodeEntryList []) = some [] := rfl
              simp [save_entries, load_entries, hd, h0]
            | some L =>
              have hL : load_entries ⟨true, false, false, some v⟩ = L := by
                simp [load_entries, hd]
              rw [hL] at h
              have h0 := decode_encode_entryList L h
              simp [save_entries, load_entries, hd, h0]

/-- C8 witness: the amended theorem applied at a store holding the valid
encoding of a one-entry list with finite hours. -/
theorem C8_save_load_idempotent_witness :
    (∀ e ∈ load_entries ⟨true, false, false,
        some (encodeEntryList
          [⟨"id1", "2025-01-10", "Food Bank", F32.finite (5 / 2), "", "", "",
            "ts1"⟩])⟩,
      Entry.hours e |>.isFinite = true) ∧
    load_entries
      (save_entries
        (load_entries ⟨true, false, false,
          some (encodeEntryList
            [⟨"id1", "2025-01-10", "Food Bank", F32.finite (5 / 2), "", "", "",
              "ts1"⟩])⟩)
        ⟨true, false, false,
          some (encodeEntryList
            [⟨"id1", "2025-01-10", "Food Bank", F32.finite (5 / 2), "", "", "",
              "ts1"⟩])⟩) =
      load_entries ⟨true, false, false,
        some (encodeEntryList
          [⟨"id1", "2025-01-10", "Food Bank", F32.finite (5 / 2), "", "", "",
            "ts1"⟩])⟩ :=
  ⟨by with_unfolding_all decide,
    C8_save_load_idempotent ⟨true, false, false,
        some (encodeEntryList
          [⟨"id1", "2025-01-10", "Food Bank", F32.finite (5 / 2), "", "", "",
            "ts1"⟩])⟩
      (by with_unfolding_all decide)⟩

/-- C9 counterexample: the claim of unconditional id uniqueness fails.
`uid()` is the millisecond clock `js_sys::Date::now()` formatted as a string;
two successful adds within the same clock tick receive the same reading
(here "1700000000000") and the resulting list carries duplicate ids. -/
theorem C9_uid_collision_cex :
    (add_all
        [(⟨"2025-01-10", "Food Bank", "1", "", "", ""⟩, "1700000000000", "ts1"),
          (⟨"2025-01-10", "Food Bank", "1", "", "", ""⟩, "1700000000000", "ts2")]
        [] ⟨true, false, false, none⟩).1.map Entry.id =
      ["1700000000000", "1700000000000"] ∧
    ¬ (["1700000000000", "1700000000000"] : List String).Nodup := by
  exact ⟨by with_unfolding_all rfl, by decide⟩

/-- C9 amended: ids are unique across a creation sequence provided the
`uid()` readings at the successful creations are pairwise distinct and
distinct from all preexisting ids — the code guarantees nothing more, since
`uid()` repeats within one millisecond tick. -/
theorem C9_ids_unique_of_distinct_uids (steps : List (Form × String × String))
    (es : List Entry) (st : Store)
    (h1 : (steps.map (fun s => s.2.1)).Nodup)
    (h2 : ∀ s ∈ steps, ∀ e ∈ es, s.2.1 ≠ e.id)
    (h3 : (es.map Entry.id).Nodup) :
    ((add_all steps es st).1.map Entry.id).Nodup := by
  induction steps generalizing es st with
  | nil => exact h3
  | cons s rest ih =>
    simp only [List.map_cons, List.nodup_cons] at h1
    rcases h1 with ⟨hnotin, h1r⟩
    simp only [add_all]
    rcases on_add_entries_cases s.1 s.2.1 s.2.2 es st with hsame | ⟨e, hid, hcons⟩
    · rw [hsame]
      exact ih _ _ h1r (fun s' hs' x hx => h2 s' (List.mem_cons_of_mem s hs') x hx)
        h3
    · rw [hcons]
      refine ih _ _ h1r ?_ ?_
      · intro s' hs' x hx
        rcases List.mem_cons.mp hx with h4 | h5
        · rw [h4, hid]
          intro hEq
          exact hnotin (hEq ▸ List.mem_map.mpr ⟨s', hs', rfl⟩)
        · exact h2 s' (List.mem_cons_of_mem s hs') x h5
      · simp only [List.map_cons, List.nodup_cons]
        refine ⟨?_, h3⟩
        rw [hid]
        intro hmem
        rcases List.mem_map.mp hmem with ⟨x, hx, hxid⟩
        exact h2 s (List.mem_cons_self s rest) x hx hxid.symm

/-- C9 witness: two adds with distinct uid readings from the empty list
yield pairwise distinct ids. -/
theorem C9_ids_unique_of_distinct_uids_witness :
    ((([(⟨"2025-01-10", "Food Bank", "1", "", "", ""⟩, "100", "t1"),
          (⟨"2025-01-10", "Food Bank", "1", "", "", ""⟩, "101", "t2")] :
          List (Form × String × String)).map (fun s => s.2.1)).Nodup ∧
      (([] : List Entry).map Entry.id).Nodup) ∧
    ((add_all
        [(⟨"2025-01-10", "Food Bank", "1", "", "", ""⟩, "100", "t1"),
          (⟨"2025-01-10", "Food Bank", "1", "", "", ""⟩, "101", "t2")]
        [] ⟨true, false, false, none⟩).1.map Entry.id).Nodup :=
  ⟨⟨by decide, by decide⟩,
    C9_ids_unique_of_distinct_uids
      [(⟨"2025-01-10", "Food Bank", "1", "", "", ""⟩, "100", "t1"),
        (⟨"2025-01-10", "Food Bank", "1", "", "", ""⟩, "101", "t2")]
      [] ⟨true, false, false, none⟩
      (by decide) (by intro s hs e he; simp at he) (by decide)⟩

/-- C10 counterexample: the claim promises that after a confirmed clear a
subsequent load returns empty.  But `save_entries` discards the result of
`set_item`; with a failing write the slot keeps the old one-entry encoding,
so the load after a confirmed clear returns that old entry while the
in-memory list is empty. -/
theorem C10_clear_cex :
    (on_clear_all (some true)
        [⟨"id1", "2025-01-10", "Food Bank", F32.finite 1, "", "", "", "ts1"⟩]
        ⟨true, false, true,
          some (encodeEntryList
            [⟨"id1", "2025-01-10", "Food Bank", F32.finite 1, "", "", "",
              "ts1"⟩])⟩).1 = [] ∧
    load_entries
      (on_clear_all (some true)
          [⟨"id1", "2025-01-10", "Food Bank", F32.finite 1, "", "", "", "ts1"⟩]
          ⟨true, false, true,
            some (encodeEntryList
              [⟨"id1", "2025-01-10", "Food Bank", F32.finite 1, "", "", "",
                "ts1"⟩])⟩).2 =
      [⟨"id1", "2025-01-10", "Food Bank", F32.finite 1, "", "", "", "ts1"⟩] := by
  exact ⟨rfl, by with_unfolding_all rfl⟩

/-- C10 amended: a declined (or unavailable) confirmation leaves both the
in-memory list and the store untouched with no save; a confirmed clear
always empties the in-memory list, and — provided the storage write itself
does not fail — a subsequent load returns the empty list as well. -/
theorem C10_clear_guarded (confirm : Option Bool) (es : List Entry)
    (st : Store) :
    (confirm.getD false = false → on_clear_all confirm es st = (es, st)) ∧
    (confirm.getD false = true →
      (on_clear_all confirm es st).1 = [] ∧
      (st.setFails = false →
        load_entries (on_clear_all confirm es st).2 = [])) := by
  constructor
  · intro h
    simp [on_clear_all, h]
  · intro h
    constructor
    · simp [on_clear_all, h]
    · intro hset
      simp only [on_clear_all, h, Bool.not_true, Bool.false_eq_true, if_false]
      cases st with
      | mk av gf sf slot =>
        cases av with
        | false => simp [save_entries, load_entries]
        | true =>
          cases gf with
          | true =>
            have h0 : decodeEntryList (encodeEntryList []) = some [] := rfl
            simp_all [save_entries, load_entries, h0]
          | false =>
            have h0 : decodeEntryList (encodeEntryList []) = some [] := rfl
            simp_all [save_entries, load_entries, h0]

/-- C10 witness: the theorem applied at a declined prompt (state unchanged)
and at a confirmed clear over a working store (load returns empty). -/
theorem C10_clear_guarded_witness :
    on_clear_all (some false)
        [⟨"id1", "2025-01-10", "Food Bank", F32.finite 1, "", "", "", "ts1"⟩]
        ⟨true, false, false, none⟩ =
      ([⟨"id1", "2025-01-10", "Food Bank", F32.finite 1, "", "", "", "ts1"⟩],
        ⟨true, false, false, none⟩) ∧
    load_entries
      (on_clear_all (some true)
          [⟨"id1", "2025-01-10", "Food Bank", F32.finite 1, "", "", "", "ts1"⟩]
          ⟨true, false, false, none⟩).2 = [] :=
  ⟨(C10_clear_guarded (some false)
        [⟨"id1", "2025-01-10", "Food Bank", F32.finite 1, "", "", "", "ts1"⟩]
        ⟨true, false, false, none⟩).1 rfl,
    ((C10_clear_guarded (some true)
        [⟨"id1", "2025-01-10", "Food Bank", F32.finite 1, "", "", "", "ts1"⟩]
        ⟨true, false, false, none⟩).2 rfl).2 rfl⟩
